import Mathlib

/-!
Verification of the collect CLI filter-and-stream pipeline from
src/main.rs, as a shallow embedding in Lean 4.

Modeling conventions:
- Rust strings are lists of characters (RStr); file bytes are lists of
  Nat, where a NUL byte is 0.
- The regex engine and the std path accessors are external
  collaborators: a compiled regex is modeled as a predicate on the
  matched text, and a path is modeled by the three text projections the
  filter reads (extension, file name, full path), each absent when the
  component is missing or is not valid text.
- Sink writes inside stream_file_content are modeled as infallible, so
  the io Result returned by that function is always Ok; this is
  mirrored by the retOk field. Sink write failures are modeled where
  main handles them: each attempted record write carries an abstract
  outcome (ok, broken pipe, other error), and the flush carries one as
  well.
- The first read of the buffered reader into the 8192-byte lookahead
  buffer is modeled as returning min 8192 (file length) bytes.
-/

namespace Collect

/-- Rust string, modeled as a list of characters. -/
abbrev RStr := List Char

/-- Model of Rust str to_lowercase, applied characterwise. -/
def to_lowercase (s : RStr) : RStr := s.map Char.toLower

/-- Scope enum from main.rs: which text the regex is applied to. -/
inductive Scope
  | Name
  | Path
deriving DecidableEq

/-- The three text projections of a std Path value that should_process
reads. Each is none when the component is absent or is not valid text,
mirroring the Option returned by the accessor chained with to_str. -/
structure PathModel where
  ext : Option RStr
  file_name : Option RStr
  full : Option RStr
deriving DecidableEq

/-- The fields of AppConfig (main.rs) used by the modeled functions.
Walker-only fields (base_path, depth, exclude, no_default_excludes,
include_hidden, follow_symlinks) and the display-only fields
(absolute_path) belong to external collaborators and are omitted. The
output file path is abstracted to Option Unit: only is_some is read. -/
structure AppConfig where
  extensions : Option (List RStr)
  extension_inv : Bool
  regex : Option (RStr → Bool)
  regex_inv : Bool
  scope : Scope
  max_bytes : Option Nat
  read_content : Bool
  output : Option Unit
  quiet : Bool

/-- Text selected by the regex check in should_process according to the
configured scope: the final path component for Name, the full path
string for Path; an unrepresentable component is the empty string. -/
def scope_text (scope : Scope) (path : PathModel) : RStr :=
  match scope with
  | Scope.Name => path.file_name.getD []
  | Scope.Path => path.full.getD []

/-- Model of should_process (main.rs lines 200 to 229). The extension
check runs only for non-directories and only when an extension list is
configured; it rejects when membership of the lowercased extension
equals extension_inv. The regex check runs only when a regex is
configured and rejects when the match outcome equals regex_inv. -/
def should_process (path : PathModel) (config : AppConfig) (is_dir : Bool) : Bool :=
  let ext_rejects :=
    if is_dir then false
    else
      match config.extensions with
      | none => false
      | some exts =>
        let file_ext := (path.ext.map to_lowercase).getD []
        let found := exts.contains file_ext
        found == config.extension_inv
  if ext_rejects then false
  else
    let regex_rejects :=
      match config.regex with
      | none => false
      | some re =>
        let found := re (scope_text config.scope path)
        found == config.regex_inv
    if regex_rejects then false else true

/-- Size of the lookahead buffer in stream_file_content. -/
def CHUNK_SIZE : Nat := 8192

/-- Value of u64 MAX, the cap used when max_bytes is absent. -/
def U64_MAX : Nat := 2 ^ 64 - 1

/-- The fixed marker texts stream_file_content writes to the sink.
newline is the single leading newline before content; blockEnd is the
two trailing newlines after content. -/
inductive Marker
  | errorOpen
  | emptyFile
  | binarySuppressed
  | newline
  | blockEnd
deriving DecidableEq

/-- One write to the sink: either a fixed marker text or raw content
bytes of the file. -/
inductive Chunk
  | marker (m : Marker)
  | bytes (bs : List Nat)
deriving DecidableEq

/-- Number of raw content bytes a sink write contributes; marker texts
including the leading and trailing newlines contribute none. -/
def Chunk.contentLen : Chunk → Nat
  | Chunk.marker _ => 0
  | Chunk.bytes bs => bs.length

/-- Result of stream_file_content: the sequence of sink writes, the
total number of bytes read from the file, and whether the function
returned Ok (always true here because sink writes are modeled as
infallible and every branch of the Rust function then returns Ok). -/
structure StreamResult where
  out : List Chunk
  bytesRead : Nat
  retOk : Bool
deriving DecidableEq

/-- Model of stream_file_content (main.rs lines 268 to 334). The file
argument is none when File open fails, some data otherwise. -/
def stream_file_content (file : Option (List Nat)) (max_bytes : Option Nat) :
    StreamResult :=
  match file with
  | none => ⟨[Chunk.marker Marker.errorOpen], 0, true⟩
  | some data =>
    let chunk := data.take CHUNK_SIZE
    let n := chunk.length
    if n = 0 then ⟨[Chunk.marker Marker.emptyFile], 0, true⟩
    else if chunk.contains 0 then ⟨[Chunk.marker Marker.binarySuppressed], n, true⟩
    else
      let limit := max_bytes.getD U64_MAX
      let bytes_to_write := min n limit
      if bytes_to_write < limit then
        let copied := min (data.length - n) (limit - bytes_to_write)
        ⟨[Chunk.marker Marker.newline, Chunk.bytes (chunk.take bytes_to_write),
          Chunk.bytes ((data.drop n).take (limit - bytes_to_write)),
          Chunk.marker Marker.blockEnd], n + copied, true⟩
      else
        ⟨[Chunk.marker Marker.newline, Chunk.bytes (chunk.take bytes_to_write),
          Chunk.marker Marker.blockEnd], n, true⟩

/-- Total number of raw content bytes among the sink writes of a
stream_file_content result. -/
def contentBytes (r : StreamResult) : Nat := (r.out.map Chunk.contentLen).sum

/-- C9: a zero-length file yields exactly the empty-file marker, zero
content bytes, and zero bytes read (no further read is attempted). -/
theorem empty_file_marker (mb : Option Nat) :
    stream_file_content (some []) mb = ⟨[Chunk.marker Marker.emptyFile], 0, true⟩ ∧
    contentBytes (stream_file_content (some []) mb) = 0 := by
  exact ⟨rfl, rfl⟩

/-- C5: when opening the file fails, stream_file_content writes exactly
the inline error marker, emits zero content bytes, reads nothing, and
returns Ok, for every max_bytes setting. -/
theorem open_failure_marker_ok (mb : Option Nat) :
    stream_file_content none mb = ⟨[Chunk.marker Marker.errorOpen], 0, true⟩ ∧
    contentBytes (stream_file_content none mb) = 0 ∧
    (stream_file_content none mb).retOk = true := by
  exact ⟨rfl, rfl, rfl⟩

/-- C2: when the lookahead chunk (the first at most 8192 bytes of the
file) contains a zero byte, stream_file_content writes exactly the
binary-suppressed marker, emits zero content bytes, and reads no bytes
beyond the lookahead chunk, for every max_bytes setting. -/
theorem binary_short_circuit (data : List Nat) (mb : Option Nat)
    (h : (data.take CHUNK_SIZE).contains 0 = true) :
    stream_file_content (some data) mb
      = ⟨[Chunk.marker Marker.binarySuppressed], (data.take CHUNK_SIZE).length, true⟩ ∧
    contentBytes (stream_file_content (some data) mb) = 0 ∧
    (stream_file_content (some data) mb).bytesRead ≤ CHUNK_SIZE := by
  have hne : (data.take CHUNK_SIZE).length ≠ 0 := by
    intro h0
    rw [List.length_eq_zero] at h0
    rw [h0] at h
    simp at h
  have heq : stream_file_content (some data) mb
      = ⟨[Chunk.marker Marker.binarySuppressed], (data.take CHUNK_SIZE).length, true⟩ := by
    simp only [stream_file_content, hne, h, if_false, if_true, ite_false, ite_true]
  refine ⟨heq, ?_, ?_⟩
  · rw [heq]; rfl
  · rw [heq]
    simp only [List.length_take]
    exact Nat.min_le_left _ _

/-- C2 witness at a concrete binary file. -/
theorem binary_short_circuit_witness :
    ((([0, 7] : List Nat).take CHUNK_SIZE).contains 0 = true) ∧
    stream_file_content (some [0, 7]) none
      = ⟨[Chunk.marker Marker.binarySuppressed],
         (([0, 7] : List Nat).take CHUNK_SIZE).length, true⟩ ∧
    stream_file_content (some [0, 7]) (some 0)
      = ⟨[Chunk.marker Marker.binarySuppressed],
         (([0, 7] : List Nat).take CHUNK_SIZE).length, true⟩ := by
  refine ⟨by decide, (binary_short_circuit [0, 7] none (by decide)).1,
    (binary_short_circuit [0, 7] (some 0) (by decide)).1⟩

/-- C1: for a file whose lookahead chunk holds no zero byte and a set
cap M, the total number of content bytes stream_file_content writes is
exactly min (file length) M, and in particular never exceeds M. -/
theorem stream_cap_exact (data : List Nat) (M : Nat)
    (h : (data.take CHUNK_SIZE).contains 0 = false) :
    contentBytes (stream_file_content (some data) (some M)) = min data.length M ∧
    contentBytes (stream_file_content (some data) (some M)) ≤ M := by
  have hmain : contentBytes (stream_file_content (some data) (some M))
      = min data.length M := by
    by_cases h0 : (data.take CHUNK_SIZE).length = 0
    · have hdat : data = [] := by
        rw [List.length_take] at h0
        have hl : data.length = 0 := by simp only [CHUNK_SIZE] at h0; omega
        exact List.length_eq_zero.mp hl
      subst hdat
      simp [stream_file_content, contentBytes, Chunk.contentLen]
    · simp only [stream_file_content, contentBytes]
      rw [if_neg h0, if_neg (by rw [h]; exact Bool.false_ne_true)]
      simp only [Option.getD_some]
      split
      · rename_i hc
        simp only [List.map_cons, List.map_nil, Chunk.contentLen, List.sum_cons,
          List.sum_nil, List.length_take, List.length_drop]
        simp only [List.length_take, CHUNK_SIZE] at hc ⊢
        omega
      · rename_i hc
        simp only [List.map_cons, List.map_nil, Chunk.contentLen, List.sum_cons,
          List.sum_nil, List.length_take]
        simp only [List.length_take, CHUNK_SIZE] at hc ⊢
        omega
  exact ⟨hmain, by rw [hmain]; exact Nat.min_le_right _ _⟩

/-- C1 witness at concrete non-binary files, covering a cap below the
file size and the edge case of cap zero. -/
theorem stream_cap_exact_witness :
    ((([1, 2, 3] : List Nat).take CHUNK_SIZE).contains 0 = false) ∧
    contentBytes (stream_file_content (some [1, 2, 3]) (some 2)) = min 3 2 ∧
    contentBytes (stream_file_content (some [1, 2, 3]) (some 0)) = min 3 0 := by
  exact ⟨by decide, (stream_cap_exact [1, 2, 3] 2 (by decide)).1,
    (stream_cap_exact [1, 2, 3] 0 (by decide)).1⟩

/-- C3: with an extension list configured and no regex, should_process
applied to a non-directory returns false exactly when membership of the
lowercased extension (empty when absent) in the list equals
extension_inv; with inv false this accepts exactly the listed
extensions, with inv true it rejects exactly the listed extensions. -/
theorem extension_filter_formula (path : PathModel) (exts : List RStr)
    (inv rinv : Bool) (sc : Scope) (mb : Option Nat) (rc : Bool)
    (out : Option Unit) (q : Bool) :
    should_process path ⟨some exts, inv, none, rinv, sc, mb, rc, out, q⟩ false
      = !(exts.contains ((path.ext.map to_lowercase).getD []) == inv) := by
  cases hf : exts.contains ((path.ext.map to_lowercase).getD []) <;>
    cases inv <;> simp at hf <;> simp [should_process, hf]

/-- C6: with a regex configured, should_process rejects exactly when
the match outcome on the scope-selected text (final path component for
Name, full path string for Path) equals regex_inv; consequently the
regex_inv true and regex_inv false behaviors are exact complements of
each other for a fixed match outcome. -/
theorem regex_inversion_complement (path : PathModel) (re : RStr → Bool)
    (sc : Scope) (d : Bool) (mb : Option Nat) (rc : Bool)
    (out : Option Unit) (q : Bool) :
    (∀ rinv : Bool,
      should_process path ⟨none, false, some re, rinv, sc, mb, rc, out, q⟩ d
        = !(re (scope_text sc path) == rinv)) ∧
    (should_process path ⟨none, false, some re, true, sc, mb, rc, out, q⟩ d
      = !(should_process path ⟨none, false, some re, false, sc, mb, rc, out, q⟩ d)) := by
  have hbase : ∀ rinv : Bool,
      should_process path ⟨none, false, some re, rinv, sc, mb, rc, out, q⟩ d
        = !(re (scope_text sc path) == rinv) := by
    intro rinv
    cases d <;> cases hm : re (scope_text sc path) <;> cases rinv <;>
      simp [should_process, hm]
  refine ⟨hbase, ?_⟩
  rw [hbase true, hbase false]
  cases re (scope_text sc path) <;> rfl

/-- C7: should_process applied to a directory is independent of the
configured extension list and inversion flag; a path whose extension is
not representable as text behaves like one with the empty extension;
and the predicate is total, always returning one of the two booleans. -/
theorem directory_skips_extension_check (path : PathModel)
    (e1 e2 : Option (List RStr)) (i1 i2 : Bool) (re : Option (RStr → Bool))
    (rinv : Bool) (sc : Scope) (mb : Option Nat) (rc : Bool)
    (out : Option Unit) (q : Bool) :
    (should_process path ⟨e1, i1, re, rinv, sc, mb, rc, out, q⟩ true
      = should_process path ⟨e2, i2, re, rinv, sc, mb, rc, out, q⟩ true) ∧
    (∀ d : Bool,
      should_process ⟨none, path.file_name, path.full⟩
          ⟨e1, i1, re, rinv, sc, mb, rc, out, q⟩ d
        = should_process ⟨some [], path.file_name, path.full⟩
            ⟨e1, i1, re, rinv, sc, mb, rc, out, q⟩ d) ∧
    (∀ d : Bool,
      should_process path ⟨e1, i1, re, rinv, sc, mb, rc, out, q⟩ d = true
        ∨ should_process path ⟨e1, i1, re, rinv, sc, mb, rc, out, q⟩ d = false) := by
  refine ⟨rfl, ?_, ?_⟩
  · intro d
    cases d <;> rfl
  · intro d
    cases hsp : should_process path ⟨e1, i1, re, rinv, sc, mb, rc, out, q⟩ d
    · exact Or.inr rfl
    · exact Or.inl rfl

/-- Model of Rust str trim: remove leading and trailing whitespace. -/
def rust_trim (s : RStr) : RStr :=
  ((s.dropWhile Char.isWhitespace).reverse.dropWhile Char.isWhitespace).reverse

/-- Normalization applied to each raw extension in AppConfig from_cli
(main.rs line 169): trim, strip every leading dot, lowercase. -/
def normalize_extension (e : RStr) : RStr :=
  to_lowercase ((rust_trim e).dropWhile (fun c => c == '.'))

/-- Model of the extension handling of AppConfig from_cli (main.rs
lines 156 to 171): pick the whitelist or the blacklist, set the
inversion flag, and normalize every element. -/
def from_cli_extensions (extension no_extension : Option (List RStr)) :
    Option (List RStr) × Bool :=
  let raw :=
    match extension with
    | some exts => (some exts, false)
    | none =>
      match no_extension with
      | some exts => (some exts, true)
      | none => (none, false)
  (raw.1.map (fun exts => exts.map normalize_extension), raw.2)

/-- Conversion helper: a Nat below the surrogate range is a valid
character code, so Char.ofNat is faithful on it. -/
theorem char_toNat_ofNat_valid (n : Nat) (hv : n < 55296) :
    (Char.ofNat n).toNat = n := by
  rw [Char.ofNat, dif_pos (Or.inl hv)]
  rfl

/-- Char.toLower never produces an upper case ASCII letter. -/
theorem char_toLower_not_upper (c : Char) :
    ¬(65 ≤ (Char.toLower c).toNat ∧ (Char.toLower c).toNat ≤ 90) := by
  have hrw : Char.toLower c
      = if c.toNat ≥ 65 ∧ c.toNat ≤ 90 then Char.ofNat (c.toNat + 32) else c := rfl
  rw [hrw]
  split
  · rename_i hin
    have hle : c.toNat ≤ 90 := by
      rcases hin with ⟨_, h2⟩
      exact h2
    rw [char_toNat_ofNat_valid (c.toNat + 32) (by omega)]
    omega
  · rename_i hout
    intro hc
    exact hout ⟨hc.1, hc.2⟩

/-- Char.toLower maps only the dot to the dot. -/
theorem char_toLower_ne_dot (c : Char) (h : c ≠ '.') : Char.toLower c ≠ '.' := by
  have hrw : Char.toLower c
      = if c.toNat ≥ 65 ∧ c.toNat ≤ 90 then Char.ofNat (c.toNat + 32) else c := rfl
  rw [hrw]
  split
  · rename_i hin
    intro hEq
    have ht := congrArg Char.toNat hEq
    rw [char_toNat_ofNat_valid (c.toNat + 32) (by omega)] at ht
    have hdot : ('.' : Char).toNat = 46 := by decide
    omega
  · exact h

/-- The head of a normalized extension is never a dot. -/
theorem normalize_extension_head_ne_dot (t : RStr) (c : Char)
    (h : (normalize_extension t).head? = some c) : c ≠ '.' := by
  unfold normalize_extension to_lowercase at h
  rw [List.head?_map] at h
  have hd := List.head?_dropWhile_not (fun x => x == '.') (rust_trim t)
  revert h hd
  cases hh : ((rust_trim t).dropWhile (fun x => x == '.')).head? with
  | none => intro h _; exact absurd h (by simp)
  | some a =>
    intro h hd
    have hca : c = Char.toLower a := (Option.some.inj h).symm
    have hbeq : (a == '.') = false := hd
    have hne : a ≠ '.' := by
      intro he
      rw [he] at hbeq
      simp at hbeq
    rw [hca]
    exact char_toLower_ne_dot a hne

/-- A normalized extension contains no upper case ASCII letter. -/
theorem normalize_extension_not_upper (t : RStr) (c : Char)
    (h : c ∈ normalize_extension t) : ¬(65 ≤ c.toNat ∧ c.toNat ≤ 90) := by
  unfold normalize_extension to_lowercase at h
  rw [List.mem_map] at h
  rcases h with ⟨a, _, ha⟩
  rw [← ha]
  exact char_toLower_not_upper a

/-- C8 counterexample: building the configuration from the CLI input
consisting of the single extension value dot succeeds with an extension
list present, yet the stored list contains the empty string, refuting
the part of the claim stating that every stored element is non-empty. -/
theorem normalized_extension_empty_cex :
    (from_cli_extensions (some [['.']]) none).1 = some [([] : RStr)] := by
  decide

/-- C8 amended: whenever the built configuration stores an extension
list, that list is exactly the chosen raw CLI list with every element
trimmed, leading dots stripped, and lowercased; it is empty only when
the raw list was empty (so it is non-empty whenever at least one value
was supplied); elements never start with a dot and contain no upper
case ASCII letter, but they may be empty strings. -/
theorem extensions_normalized_amended (e ne : Option (List RStr))
    (lst : List RStr) (h : (from_cli_extensions e ne).1 = some lst) :
    lst = (e.getD (ne.getD [])).map normalize_extension ∧
    (lst = [] ↔ e.getD (ne.getD []) = []) ∧
    ∀ s, s ∈ lst →
      (∀ c, s.head? = some c → c ≠ '.') ∧
      (∀ c, c ∈ s → ¬(65 ≤ c.toNat ∧ c.toNat ≤ 90)) := by
  have hstruct : lst = (e.getD (ne.getD [])).map normalize_extension := by
    cases e with
    | some exts =>
      simp only [from_cli_extensions, Option.map_some] at h
      exact (Option.some.inj h).symm
    | none =>
      cases ne with
      | some exts =>
        simp only [from_cli_extensions, Option.map_some] at h
        exact (Option.some.inj h).symm
      | none =>
        simp only [from_cli_extensions, Option.map_none] at h
        exact absurd h (by simp)
  refine ⟨hstruct, ?_, ?_⟩
  · rw [hstruct]
    exact List.map_eq_nil_iff
  · intro s hs
    rw [hstruct, List.mem_map] at hs
    rcases hs with ⟨t, _, ht⟩
    rw [← ht]
    exact ⟨fun c hc => normalize_extension_head_ne_dot t c hc,
      fun c hc => normalize_extension_not_upper t c hc⟩

/-- C8 amended witness at a concrete CLI input. -/
theorem extensions_normalized_amended_witness :
    (from_cli_extensions (some [['.', 'R']]) none).1 = some [['r']] ∧
    ([['r']] : List RStr) = ([['.', 'R']] : List RStr).map normalize_extension := by
  exact ⟨by decide,
    (extensions_normalized_amended (some [['.', 'R']]) none [['r']] (by decide)).1⟩

/-- Outcome of one attempted record write (process_file), abstracting
the io Result and its ErrorKind, which depend on the external sink. -/
inductive WriteOutcome
  | ok
  | errBrokenPipe
  | errOther
deriving DecidableEq

/-- One item yielded by the traversal collaborator in main: either a
resolved entry carrying the data the loop reads plus the abstract
outcome its record write would have, or a traversal-level error. -/
inductive WalkItem
  | entry (path : PathModel) (depth : Nat) (is_dir : Bool) (write : WriteOutcome)
  | walkErr
deriving DecidableEq

/-- Observable result of the main processing loop: the final value of
the count variable, the number of diagnostics printed to the stderr
channel, and whether the loop ran to exhaustion (false when it returned
early because a record write hit a broken pipe). -/
structure LoopResult where
  count : Nat
  diags : Nat
  completed : Bool
deriving DecidableEq

/-- Model of the walker loop in main (main.rs lines 431 to 468):
skip depth zero, apply should_process and the non-directory test,
attempt the record write for accepted entries, return immediately on a
broken pipe, log other write failures (unless quiet) and keep counting,
log traversal errors (unless quiet) and continue. -/
def run_loop (config : AppConfig) : List WalkItem → LoopResult
  | [] => ⟨0, 0, true⟩
  | WalkItem.walkErr :: rest =>
    let r := run_loop config rest
    ⟨r.count, (if config.quiet then 0 else 1) + r.diags, r.completed⟩
  | WalkItem.entry path depth is_dir write :: rest =>
    if depth = 0 then run_loop config rest
    else if should_process path config is_dir && !is_dir then
      match write with
      | WriteOutcome.errBrokenPipe => ⟨0, 0, false⟩
      | WriteOutcome.errOther =>
        let r := run_loop config rest
        ⟨1 + r.count, (if config.quiet then 0 else 1) + r.diags, r.completed⟩
      | WriteOutcome.ok =>
        let r := run_loop config rest
        ⟨1 + r.count, r.diags, r.completed⟩
    else run_loop config rest

/-- Outcome of the final flush of the buffered sink, abstracting the io
Result main inspects after the loop. -/
inductive FlushOutcome
  | ok
  | errBrokenPipe
  | errOther
deriving DecidableEq

/-- Observable result of main after the loop: final count, diagnostics,
whether main returned Ok, and whether the final summary line was
printed. -/
structure MainResult where
  count : Nat
  diags : Nat
  exitOk : Bool
  reported : Bool
deriving DecidableEq

/-- Model of the tail of main (main.rs lines 431 to 486): run the loop;
an early broken-pipe return yields Ok immediately with no flush and no
summary; otherwise flush, where a broken-pipe flush failure is ignored
and any other flush failure makes main return the error; on success the
summary is printed when not quiet and output goes to stdout. -/
def run_main (config : AppConfig) (items : List WalkItem)
    (flush : FlushOutcome) : MainResult :=
  let r := run_loop config items
  if r.completed then
    match flush with
    | FlushOutcome.errOther => ⟨r.count, r.diags, false, false⟩
    | _ => ⟨r.count, r.diags, true, !config.quiet && config.output.isNone⟩
  else ⟨r.count, r.diags, true, false⟩

/-- Number of entries in a traversal for which a record write is
attempted: depth is non-zero, the entry is not a directory, and
should_process accepts it. The write outcome is ignored: failed writes
are attempts too. -/
def attempted_records (config : AppConfig) : List WalkItem → Nat
  | [] => 0
  | WalkItem.walkErr :: rest => attempted_records config rest
  | WalkItem.entry path depth is_dir _ :: rest =>
    if depth = 0 then attempted_records config rest
    else if should_process path config is_dir && !is_dir then
      1 + attempted_records config rest
    else attempted_records config rest

/-- C4: a record write failing with a broken pipe makes the run stop at
once with a success outcome: the remaining traversal items contribute
nothing (count and diagnostics stay at their values so far and the
items after the failing entry are never processed), main returns Ok
with no summary, and a broken-pipe failure at the final flush also
leaves main returning Ok. -/
theorem broken_pipe_clean_stop (config : AppConfig) (path : PathModel)
    (depth : Nat) (rest : List WalkItem) (flush : FlushOutcome)
    (hd : depth ≠ 0) (hacc : should_process path config false = true) :
    run_loop config
        (WalkItem.entry path depth false WriteOutcome.errBrokenPipe :: rest)
      = ⟨0, 0, false⟩ ∧
    run_main config
        (WalkItem.entry path depth false WriteOutcome.errBrokenPipe :: rest) flush
      = ⟨0, 0, true, false⟩ ∧
    (∀ items : List WalkItem,
      (run_main config items FlushOutcome.errBrokenPipe).exitOk = true) := by
  have hloop : run_loop config
      (WalkItem.entry path depth false WriteOutcome.errBrokenPipe :: rest)
      = ⟨0, 0, false⟩ := by
    simp [run_loop, hd, hacc]
  refine ⟨hloop, ?_, ?_⟩
  · simp only [run_main, hloop]
    rfl
  · intro items
    simp only [run_main]
    cases hcomp : (run_loop config items).completed <;> simp [hcomp]

/-- C4 witness at a concrete configuration and traversal. -/
theorem broken_pipe_clean_stop_witness :
    ((1 : Nat) ≠ 0 ∧
      should_process ⟨none, none, none⟩
        ⟨none, false, none, false, Scope.Name, none, true, none, false⟩ false = true) ∧
    run_main ⟨none, false, none, false, Scope.Name, none, true, none, false⟩
        (WalkItem.entry ⟨none, none, none⟩ 1 false WriteOutcome.errBrokenPipe
          :: [WalkItem.walkErr]) FlushOutcome.ok
      = ⟨0, 0, true, false⟩ := by
  refine ⟨⟨by decide, by decide⟩, ?_⟩
  exact (broken_pipe_clean_stop
    ⟨none, false, none, false, Scope.Name, none, true, none, false⟩
    ⟨none, none, none⟩ 1 [WalkItem.walkErr] FlushOutcome.ok
    (by decide) (by decide)).2.1

/-- C10: for every run whose loop reaches traversal exhaustion (the
only runs that reach the final report), the final count equals the
number of accepted non-directory entries whose record write was
attempted, regardless of whether those writes succeeded or failed with
a non-broken-pipe error: the counter counts attempted records, not
successfully written ones. -/
theorem files_processed_counts_attempts (config : AppConfig)
    (items : List WalkItem)
    (h : (run_loop config items).completed = true) :
    (run_loop config items).count = attempted_records config items := by
  induction items with
  | nil => rfl
  | cons it rest ih =>
    cases it with
    | walkErr =>
      simp only [run_loop, attempted_records] at h ⊢
      exact ih h
    | entry path depth is_dir write =>
      by_cases hd : depth = 0
      · simp only [run_loop, attempted_records, if_pos hd] at h ⊢
        exact ih h
      · by_cases hacc : should_process path config is_dir && !is_dir
        · cases write with
          | errBrokenPipe =>
            simp only [run_loop, if_neg hd, if_pos hacc] at h
            exact absurd h Bool.false_ne_true
          | errOther =>
            simp only [run_loop, attempted_records, if_neg hd, if_pos hacc] at h ⊢
            rw [ih h]
          | ok =>
            simp only [run_loop, attempted_records, if_neg hd, if_pos hacc] at h ⊢
            rw [ih h]
        · simp only [run_loop, attempted_records, if_neg hd, if_neg hacc] at h ⊢
          exact ih h

/-- C10 witness: a concrete completed run containing a successful
write, a failed non-broken-pipe write, a directory, a depth-zero entry,
and a traversal error; the count equals the two attempted records. -/
theorem files_processed_counts_attempts_witness :
    (run_loop ⟨none, false, none, false, Scope.Name, none, true, none, false⟩
        [WalkItem.entry ⟨none, none, none⟩ 1 false WriteOutcome.ok,
         WalkItem.entry ⟨none, none, none⟩ 2 false WriteOutcome.errOther,
         WalkItem.entry ⟨none, none, none⟩ 1 true WriteOutcome.ok,
         WalkItem.entry ⟨none, none, none⟩ 0 false WriteOutcome.ok,
         WalkItem.walkErr]).completed = true ∧
    (run_loop ⟨none, false, none, false, Scope.Name, none, true, none, false⟩
        [WalkItem.entry ⟨none, none, none⟩ 1 false WriteOutcome.ok,
         WalkItem.entry ⟨none, none, none⟩ 2 false WriteOutcome.errOther,
         WalkItem.entry ⟨none, none, none⟩ 1 true WriteOutcome.ok,
         WalkItem.entry ⟨none, none, none⟩ 0 false WriteOutcome.ok,
         WalkItem.walkErr]).count
      = attempted_records ⟨none, false, none, false, Scope.Name, none, true, none, false⟩
        [WalkItem.entry ⟨none, none, none⟩ 1 false WriteOutcome.ok,
         WalkItem.entry ⟨none, none, none⟩ 2 false WriteOutcome.errOther,
         WalkItem.entry ⟨none, none, none⟩ 1 true WriteOutcome.ok,
         WalkItem.entry ⟨none, none, none⟩ 0 false WriteOutcome.ok,
         WalkItem.walkErr] := by
  refine ⟨by decide, ?_⟩
  exact files_processed_counts_attempts
    ⟨none, false, none, false, Scope.Name, none, true, none, false⟩
    [WalkItem.entry ⟨none, none, none⟩ 1 false WriteOutcome.ok,
     WalkItem.entry ⟨none, none, none⟩ 2 false WriteOutcome.errOther,
     WalkItem.entry ⟨none, none, none⟩ 1 true WriteOutcome.ok,
     WalkItem.entry ⟨none, none, none⟩ 0 false WriteOutcome.ok,
     WalkItem.walkErr] (by decide)

end Collect
